import Mathlib

set_option autoImplicit false

/-!
Verification of the Note Edit Reconciliation Engine of toolbridge-mcp.

The definitions below are a shallow embedding of the TypeScript sources
`src/lib/noteEdits/diff.ts`, `src/lib/noteEdits/sessions.ts` and
`src/tools/notes/apply_note_edit.ts`.  JavaScript strings become `String`,
`null`/`undefined` become `Option`, JS `Map` becomes an association list with
JS `Map.get`/`Map.set`/`Map.delete` semantics, thrown exceptions become
`Except`, and timestamps become `Nat` milliseconds.  The external npm `diff`
library (`Diff.diffLines`) is not part of the repository; it is modelled as an
explicit list of change runs passed as a parameter, constrained only by the
contract `ValidChanges` (the equal/removed runs concatenate to the original
text and the equal/added runs concatenate to the proposed text).
-/

namespace ToolBridge

/-- Hunk kinds, from `HunkKind` in diff.ts. -/
inductive HunkKind where
  | unchanged
  | added
  | removed
  | modified
deriving DecidableEq, Repr

/-- Hunk review statuses, from `HunkStatus` in diff.ts. -/
inductive HunkStatus where
  | pending
  | accepted
  | rejected
  | revised
deriving DecidableEq, Repr

/-- A diff hunk, from `DiffHunk` in diff.ts.  `origLineCount`/`newLineCount`
model the internal `_origLineCount`/`_newLineCount` fields. -/
structure DiffHunk where
  kind : HunkKind
  original : String
  proposed : String
  id : Option String
  origStart : Option Nat
  origEnd : Option Nat
  newStart : Option Nat
  newEnd : Option Nat
  origLineCount : Option Nat
  newLineCount : Option Nat
deriving DecidableEq, Repr

/-- A per-hunk decision, from `HunkDecision` in diff.ts. -/
structure HunkDecision where
  status : HunkStatus
  revisedText : Option String
deriving DecidableEq, Repr

/-- Tag of one change run returned by the external `Diff.diffLines`:
neither flag set (`equal`), `added` flag set (`inserted`), or `removed`
flag set (`deleted`). -/
inductive ChangeTag where
  | equal
  | inserted
  | deleted
deriving DecidableEq, Repr

/-- One change run of the external `Diff.diffLines` library: its text
`value` and its optional line `count`. -/
structure DiffChange where
  tag : ChangeTag
  value : String
  count : Option Nat
deriving DecidableEq, Repr

/-- The original-side text a change run stands for: empty for insertions. -/
def DiffChange.origText (c : DiffChange) : String :=
  if c.tag = .inserted then "" else c.value

/-- The proposed-side text a change run stands for: empty for deletions. -/
def DiffChange.newText (c : DiffChange) : String :=
  if c.tag = .deleted then "" else c.value

/-- Concatenation of a list of strings, in order. -/
def concatStrs : List String → String
  | [] => ""
  | s :: rest => s ++ concatStrs rest

/-- Contract of the external `Diff.diffLines(original, proposed)` call: the
change runs cover both documents exactly. -/
def ValidChanges (original proposed : String) (changes : List DiffChange) : Prop :=
  concatStrs (changes.map DiffChange.origText) = original ∧
  concatStrs (changes.map DiffChange.newText) = proposed

/-- JS string truthiness test: a string is falsy exactly when it is empty. -/
def jsStrEmpty (s : String) : Bool :=
  s.data.isEmpty

/-- Worker for `jsSplitNewline` on the character list of the string. -/
def jsSplitNewlineChars : List Char → List String
  | [] => [""]
  | c :: rest =>
    if c = '\n' then "" :: jsSplitNewlineChars rest
    else
      match jsSplitNewlineChars rest with
      | [] => [String.mk [c]]
      | line :: more => String.mk (c :: line.data) :: more

/-- JS `text.split("\n")`: the list of newline-separated segments, keeping
empty segments (so a trailing newline yields a final empty segment). -/
def jsSplitNewline (s : String) : List String :=
  jsSplitNewlineChars s.data

/-- JS `lines.join("\n")`. -/
def joinWithNewline : List String → String
  | [] => ""
  | [s] => s
  | s :: rest => s ++ "\n" ++ joinWithNewline rest

/-- JS `text.endsWith("\n")`. -/
def jsEndsWithNewline (s : String) : Bool :=
  s.data.getLast? == some '\n'

/-- Fallback line count used in computeLineDiff when a change run carries no
`count`: `text.split("\n").length - (text.endsWith("\n") ? 1 : 0)`. -/
def jsLineCount (text : String) : Nat :=
  (jsSplitNewline text).length - (if jsEndsWithNewline text then 1 else 0)

/-- JS `lines.slice(-n)`.  For `n = 0`, JS `slice(-0)` is `slice(0)`, the
whole array. -/
def jsSliceLast (lines : List String) (n : Nat) : List String :=
  if n = 0 then lines else lines.drop (lines.length - n)

/-- Elision of a long unchanged section, from the truncation branch of
`computeLineDiff` in diff.ts. -/
def elideUnchanged (text : String) (maxUnchangedLines : Nat) : String :=
  let lines := jsSplitNewline text
  if lines.length > maxUnchangedLines then
    let half := maxUnchangedLines / 2
    joinWithNewline (lines.take half) ++
      "\n... (" ++ toString (lines.length - maxUnchangedLines) ++
      " lines unchanged) ...\n" ++
      joinWithNewline (jsSliceLast lines half)
  else text

/-- Options of `computeLineDiff` (the `contextLines` option is accepted by
the source but never read). -/
structure DiffOptions where
  maxUnchangedLines : Nat := 5
  truncateUnchanged : Bool := true
deriving DecidableEq, Repr

/-- Translation of one `Diff.diffLines` change run into a `DiffHunk`, from
the main loop of `computeLineDiff` in diff.ts. -/
def changeToHunk (opts : DiffOptions) (c : DiffChange) : DiffHunk :=
  let text := c.value
  let lineCount := c.count.getD (jsLineCount text)
  match c.tag with
  | .equal =>
    let displayText :=
      if opts.truncateUnchanged && !jsStrEmpty text then
        elideUnchanged text opts.maxUnchangedLines
      else text
    { kind := .unchanged, original := displayText, proposed := displayText,
      id := none, origStart := none, origEnd := none, newStart := none,
      newEnd := none, origLineCount := some lineCount,
      newLineCount := some lineCount }
  | .inserted =>
    { kind := .added, original := "", proposed := text,
      id := none, origStart := none, origEnd := none, newStart := none,
      newEnd := none, origLineCount := some 0, newLineCount := some lineCount }
  | .deleted =>
    { kind := .removed, original := text, proposed := "",
      id := none, origStart := none, origEnd := none, newStart := none,
      newEnd := none, origLineCount := some lineCount, newLineCount := some 0 }

/-- The merged `modified` hunk built from a `removed` hunk followed by an
`added` hunk, from `mergeConsecutiveChanges` in diff.ts. -/
def mkModified (c n : DiffHunk) : DiffHunk :=
  { kind := .modified, original := c.original, proposed := n.proposed,
    id := none, origStart := none, origEnd := none, newStart := none,
    newEnd := none, origLineCount := c.origLineCount,
    newLineCount := n.newLineCount }

/-- Merge each `removed` hunk immediately followed by an `added` hunk into a
single `modified` hunk, from `mergeConsecutiveChanges` in diff.ts. -/
def mergeConsecutiveChanges : List DiffHunk → List DiffHunk
  | [] => []
  | [c] => [c]
  | c :: n :: rest =>
    if c.kind = .removed ∧ n.kind = .added then
      mkModified c n :: mergeConsecutiveChanges rest
    else
      c :: mergeConsecutiveChanges (n :: rest)

/-- Line-level diff between original and proposed content, from
`computeLineDiff` in diff.ts.  The `changes` parameter stands for the value
of the external call `Diff.diffLines(original, proposed)`; it is consulted
only when both inputs are non-empty. -/
def computeLineDiff (original proposed : String) (changes : List DiffChange)
    (opts : DiffOptions) : List DiffHunk :=
  if jsStrEmpty original && jsStrEmpty proposed then []
  else if jsStrEmpty original then
    [{ kind := .added, original := "", proposed := proposed,
       id := none, origStart := none, origEnd := none, newStart := none,
       newEnd := none, origLineCount := some 0,
       newLineCount := some ((jsSplitNewline proposed).length) }]
  else if jsStrEmpty proposed then
    [{ kind := .removed, original := original, proposed := "",
       id := none, origStart := none, origEnd := none, newStart := none,
       newEnd := none, origLineCount := some ((jsSplitNewline original).length),
       newLineCount := some 0 }]
  else
    mergeConsecutiveChanges (changes.map (changeToHunk opts))

/-- Worker of `annotateHunksWithIds`: index `i` and running 1-based line
counters for the original and proposed sides. -/
def annotateGo : List DiffHunk → Nat → Nat → Nat → List DiffHunk
  | [], _, _, _ => []
  | h :: rest, i, origLine, newLine =>
    let hunkId := "h" ++ toString (i + 1)
    let origLen := h.origLineCount.getD
      (if jsStrEmpty h.original then 0 else (jsSplitNewline h.original).length)
    let newLen := h.newLineCount.getD
      (if jsStrEmpty h.proposed then 0 else (jsSplitNewline h.proposed).length)
    { h with
      id := some hunkId,
      origStart := if h.kind ≠ .added ∧ 0 < origLen then some origLine else none,
      origEnd :=
        if h.kind ≠ .added ∧ 0 < origLen then some (origLine + origLen - 1) else none,
      newStart := if h.kind ≠ .removed ∧ 0 < newLen then some newLine else none,
      newEnd :=
        if h.kind ≠ .removed ∧ 0 < newLen then some (newLine + newLen - 1) else none } ::
    annotateGo rest (i + 1)
      (if 0 < origLen then origLine + origLen else origLine)
      (if 0 < newLen then newLine + newLen else newLine)

/-- Annotate hunks with stable ids `h1`, `h2`, … and 1-based line ranges,
from `annotateHunksWithIds` in diff.ts. -/
def annotateHunksWithIds (hunks : List DiffHunk) : List DiffHunk :=
  annotateGo hunks 0 1 1

/-- JS `Map.get`: the entry of the first (unique, for maps built by
`jsMapSet`) pair with the given key. -/
def jsMapGet {α : Type} (m : List (String × α)) (k : String) : Option α :=
  (m.find? (fun p => p.1 == k)).map Prod.snd

/-- JS `Map.set`: replace the value of an existing key in place, else append
a new entry. -/
def jsMapSet {α : Type} (m : List (String × α)) (k : String) (v : α) :
    List (String × α) :=
  if m.any (fun p => p.1 == k) then
    m.map (fun p => if p.1 == k then (k, v) else p)
  else m ++ [(k, v)]

/-- JS `Map.delete`: drop every entry with the given key. -/
def jsMapDelete {α : Type} (m : List (String × α)) (k : String) :
    List (String × α) :=
  m.filter (fun p => p.1 != k)

/-- The message of the exception thrown by `applyHunkDecisions` for an
unresolved hunk. -/
def pendingErrorMsg (hunkId : String) : String :=
  "Hunk " ++ hunkId ++ " is pending - cannot apply"

/-- Apply per-hunk decisions to produce the final merged content, from
`applyHunkDecisions` in diff.ts.  The thrown exception becomes the `error`
case of `Except`. -/
def applyHunkDecisions : List DiffHunk → List (String × HunkDecision) →
    Except String String
  | [], _ => .ok ""
  | h :: rest, decisions =>
    let hunkId := h.id.getD ""
    if h.kind = .unchanged then
      (applyHunkDecisions rest decisions).map (fun tail => h.original ++ tail)
    else
      match jsMapGet decisions hunkId with
      | none => .error (pendingErrorMsg hunkId)
      | some decision =>
        if decision.status = .pending then .error (pendingErrorMsg hunkId)
        else
          let segment : String :=
            if decision.status = .accepted then
              if h.kind = .removed then "" else h.proposed
            else if decision.status = .rejected then
              if h.kind = .added then "" else h.original
            else
              match decision.revisedText with
              | some t => t
              | none => ""
          (applyHunkDecisions rest decisions).map (fun tail => segment ++ tail)

/-- Mutable per-hunk state inside a session, from `NoteEditHunkState` in
sessions.ts. -/
structure NoteEditHunkState where
  id : String
  kind : HunkKind
  original : String
  proposed : String
  status : HunkStatus
  revisedText : Option String
  origStart : Option Nat
  origEnd : Option Nat
  newStart : Option Nat
  newEnd : Option Nat
deriving DecidableEq, Repr

/-- The payload of a backend note (title and content), from `NotePayload` in
api/types.ts. -/
structure NotePayload where
  title : Option String
  content : Option String
deriving DecidableEq, Repr

/-- A backend note, from `Note` in api/types.ts (only the fields the session
store reads). -/
structure Note where
  uid : String
  version : Nat
  payload : NotePayload
deriving DecidableEq, Repr

/-- An edit session, from `NoteEditSession` in sessions.ts.  `createdAt` is
a timestamp in milliseconds. -/
structure NoteEditSession where
  id : String
  noteUid : String
  baseVersion : Nat
  title : String
  originalContent : String
  proposedContent : String
  summary : Option String
  createdAt : Nat
  createdBy : Option String
  hunks : List NoteEditHunkState
  currentContent : Option String
deriving DecidableEq, Repr

/-- Counts of non-unchanged hunks by status, from `HunkCounts` in
sessions.ts. -/
structure HunkCounts where
  pending : Nat
  accepted : Nat
  rejected : Nat
  revised : Nat
deriving DecidableEq, Repr

/-- The module-level `sessions` map of sessions.ts, made explicit. -/
abbrev SessionStore : Type := List (String × NoteEditSession)

/-- JS `String.trim()`: strip leading and trailing whitespace. -/
def jsTrim (s : String) : String :=
  let ws : Char → Bool := fun c => c = ' ' ∨ c = '\t' ∨ c = '\n' ∨ c = '\r'
  String.mk (((s.data.dropWhile ws).reverse.dropWhile ws).reverse)

/-- Initial per-hunk state built from a `DiffHunk`, from the loop in
`createSession`: unchanged hunks start `accepted`, all others `pending`. -/
def hunkStateOfDiffHunk (h : DiffHunk) : NoteEditHunkState :=
  { id := h.id.getD ""
    kind := h.kind
    original := h.original
    proposed := h.proposed
    status := if h.kind = .unchanged then .accepted else .pending
    revisedText := none
    origStart := h.origStart
    origEnd := h.origEnd
    newStart := h.newStart
    newEnd := h.newEnd }

/-- The session record built by `createSession` in sessions.ts.  The
generated uuid and the clock reading become the parameters `sessionId` and
`now`. -/
def createSessionValue (sessionId : String) (now : Nat) (note : Note)
    (proposedContent : String) (summary : Option String)
    (userId : Option String) (hunks : List DiffHunk) : NoteEditSession :=
  { id := sessionId
    noteUid := note.uid
    baseVersion := note.version
    title := jsTrim (note.payload.title.getD "Untitled note")
    originalContent := note.payload.content.getD ""
    proposedContent := proposedContent
    summary := summary
    createdAt := now
    createdBy := userId
    hunks := hunks.map hunkStateOfDiffHunk
    currentContent := none }

/-- Session creation, from `createSession` in sessions.ts: build the record
and store it under its id. -/
def createSession (store : SessionStore) (sessionId : String) (now : Nat)
    (note : Note) (proposedContent : String) (summary : Option String)
    (userId : Option String) (hunks : List DiffHunk) :
    NoteEditSession × SessionStore :=
  let session := createSessionValue sessionId now note proposedContent summary
    userId hunks
  (session, jsMapSet store sessionId session)

/-- Session lookup, from `getSession` in sessions.ts: a plain map lookup. -/
def getSession (store : SessionStore) (editId : String) :
    Option NoteEditSession :=
  jsMapGet store editId

/-- Remove and return a session, from `discardSession` in sessions.ts. -/
def discardSession (store : SessionStore) (editId : String) :
    Option NoteEditSession × SessionStore :=
  match jsMapGet store editId with
  | some session => (some session, jsMapDelete store editId)
  | none => (none, store)

/-- Update the first hunk with the given id, from the for-loop with `break`
in `setHunkStatus`: `revisedText` is kept only when the new status is
`revised`. -/
def updateHunk (hunkId : String) (status : HunkStatus)
    (revisedText : Option String) :
    List NoteEditHunkState → List NoteEditHunkState
  | [] => []
  | h :: rest =>
    if h.id = hunkId then
      { h with status := status,
               revisedText := if status = .revised then revisedText else none }
        :: rest
    else h :: updateHunk hunkId status revisedText rest

/-- The decisions map built from session hunks in `recomputeCurrentContent`:
one entry per hunk with a truthy (non-empty) id. -/
def decisionsOfHunks (hunks : List NoteEditHunkState) :
    List (String × HunkDecision) :=
  hunks.foldl
    (fun m h =>
      if jsStrEmpty h.id then m
      else jsMapSet m h.id { status := h.status, revisedText := h.revisedText })
    []

/-- The pending-check of `recomputeCurrentContent`: is any non-unchanged
hunk still pending? -/
def anyPendingChanged (hunks : List NoteEditHunkState) : Bool :=
  hunks.any (fun h => h.status == .pending && h.kind != .unchanged)

/-- The freshly recomputed, untruncated, annotated hunk sequence that
`recomputeCurrentContent` reconciles over. -/
def fullHunksOf (differ : String → String → List DiffChange)
    (session : NoteEditSession) : List DiffHunk :=
  annotateHunksWithIds
    (computeLineDiff session.originalContent session.proposedContent
      (differ session.originalContent session.proposedContent)
      { truncateUnchanged := false })

/-- Recompute `currentContent`, from `recomputeCurrentContent` in
sessions.ts: null while any changed hunk is pending, otherwise reconcile a
freshly recomputed untruncated hunk sequence (null again if that throws).
`differ` stands for the external `Diff.diffLines`. -/
def recomputeCurrentContent (differ : String → String → List DiffChange)
    (session : NoteEditSession) : NoteEditSession :=
  if anyPendingChanged session.hunks then
    { session with currentContent := none }
  else
    let decisions := decisionsOfHunks session.hunks
    match applyHunkDecisions (fullHunksOf differ session) decisions with
    | .ok content => { session with currentContent := some content }
    | .error _ => { session with currentContent := none }

/-- Set a hunk status, from `setHunkStatus` in sessions.ts: update the hunk
(a silent no-op when the hunk id is absent), recompute `currentContent`, and
return the updated session, or null when the session id is unknown. -/
def setHunkStatus (differ : String → String → List DiffChange)
    (store : SessionStore) (editId hunkId : String) (status : HunkStatus)
    (revisedText : Option String) : Option NoteEditSession × SessionStore :=
  match jsMapGet store editId with
  | none => (none, store)
  | some session =>
    let updated := recomputeCurrentContent differ
      { session with hunks := updateHunk hunkId status revisedText session.hunks }
    (some updated, jsMapSet store editId updated)

/-- Zero counts. -/
def HunkCounts.zero : HunkCounts :=
  { pending := 0, accepted := 0, rejected := 0, revised := 0 }

/-- Count non-unchanged hunks by status, from `getHunkCounts` in
sessions.ts; all zero for an unknown session id. -/
def getHunkCounts (store : SessionStore) (editId : String) : HunkCounts :=
  match jsMapGet store editId with
  | none => HunkCounts.zero
  | some session =>
    session.hunks.foldl
      (fun c h =>
        if h.kind = .unchanged then c
        else
          match h.status with
          | .pending => { c with pending := c.pending + 1 }
          | .accepted => { c with accepted := c.accepted + 1 }
          | .rejected => { c with rejected := c.rejected + 1 }
          | .revised => { c with revised := c.revised + 1 })
      HunkCounts.zero

/-- The one-hour session expiry threshold `SESSION_MAX_AGE_MS`. -/
def SESSION_MAX_AGE_MS : Nat := 60 * 60 * 1000

/-- Expiry sweep, from `cleanupExpiredSessions` in sessions.ts: delete every
session strictly older than `maxAgeMs` and return the surviving store with
the number of deletions. -/
def cleanupExpiredSessions (store : SessionStore) (now : Nat)
    (maxAgeMs : Nat) : SessionStore × Nat :=
  (store.filter (fun p => ¬ now - p.2.createdAt > maxAgeMs),
   (store.filter (fun p => now - p.2.createdAt > maxAgeMs)).length)

/-- Outcome of the `apply_note_edit` tool handler. -/
inductive ApplyOutcome where
  | sessionNotFound
  | stillPending (count : Nat)
  | cannotComputeContent
  | applied (content noteUid title : String) (baseVersion : Nat)
  | saveFailed
deriving DecidableEq, Repr

/-- The `apply_note_edit` handler of apply_note_edit.ts, with the
backend write abstracted by `writeSucceeds`: session lookup, the pending
check via `getHunkCounts`, the JS-falsy check `!session.currentContent`
(true both for null and for the empty string), the conditional write, and
session deletion only on the success path. -/
def applyNoteEdit (store : SessionStore) (editId : String)
    (writeSucceeds : Bool) : ApplyOutcome × SessionStore :=
  match getSession store editId with
  | none => (.sessionNotFound, store)
  | some session =>
    let counts := getHunkCounts store editId
    if counts.pending > 0 then (.stillPending counts.pending, store)
    else
      match session.currentContent with
      | none => (.cannotComputeContent, store)
      | some content =>
        if jsStrEmpty content then (.cannotComputeContent, store)
        else if writeSucceeds then
          (.applied content session.noteUid session.title session.baseVersion,
           (discardSession store editId).2)
        else (.saveFailed, store)

/-! Specification-side definitions, for stating the claims. -/

/-- Concatenation of every hunk's original-side text, in order. -/
def concatOriginals (hunks : List DiffHunk) : String :=
  concatStrs (hunks.map (fun h => h.original))

/-- Concatenation of every hunk's proposed-side text, in order. -/
def concatProposeds (hunks : List DiffHunk) : String :=
  concatStrs (hunks.map (fun h => h.proposed))

/-- Does the hunk block reconciliation: non-unchanged with a missing or
pending decision. -/
def unresolvedFor (decisions : List (String × HunkDecision)) (h : DiffHunk) :
    Bool :=
  h.kind != .unchanged &&
    (match jsMapGet decisions (h.id.getD "") with
     | none => true
     | some d => d.status == .pending)

/-- Per-hunk contribution to the reconciled document, following the
kind-by-status table of the specification: unchanged hunks always
contribute their original text; accepted contributes the proposed text
(nothing for removals); rejected contributes the original text (nothing
for additions); revised contributes the revised text (the empty string
when the revised text is null). -/
def tableContribution (decisions : List (String × HunkDecision))
    (h : DiffHunk) : String :=
  if h.kind = .unchanged then h.original
  else
    match jsMapGet decisions (h.id.getD "") with
    | none => ""
    | some d =>
      match d.status with
      | .pending => ""
      | .accepted => if h.kind = .removed then "" else h.proposed
      | .rejected => if h.kind = .added then "" else h.original
      | .revised => d.revisedText.getD ""

/-- Is the hunk decided with the given status in the decisions map. -/
def decidedAs (decisions : List (String × HunkDecision)) (st : HunkStatus)
    (h : DiffHunk) : Bool :=
  match jsMapGet decisions (h.id.getD "") with
  | some d => d.status == st
  | none => false

/-- Structural well-formedness of a diff hunk: unchanged hunks carry the
same text on both sides, additions carry no original text, removals carry
no proposed text. -/
def WFHunk (h : DiffHunk) : Prop :=
  (h.kind = .unchanged → h.original = h.proposed) ∧
  (h.kind = .added → h.original = "") ∧
  (h.kind = .removed → h.proposed = "")

/-- Positional alignment of session hunk states with an annotated hunk
sequence: same length, and the same id and kind at every position. -/
def matchesSkeleton : List NoteEditHunkState → List DiffHunk → Bool
  | [], [] => true
  | hs :: restS, dh :: restD =>
    hs.id == dh.id.getD "" && hs.kind == dh.kind && matchesSkeleton restS restD
  | _, _ => false

/-! Concrete fixtures used by witnesses and counterexamples. -/

/-- A differ stub returning no change runs; the flows below only exercise
the special cases of `computeLineDiff` that never consult the runs. -/
def exDiffer0 : String → String → List DiffChange := fun _ _ => []

/-- A differ for the pair `("a\n", "b\n")`: one deleted and one inserted
run, as `Diff.diffLines` reports for two entirely different one-line
documents. -/
def exDifferC : String → String → List DiffChange :=
  fun _ _ => [⟨.deleted, "a\n", some 1⟩, ⟨.inserted, "b\n", some 1⟩]

/-- A note whose content is the one-line document `"x\n"`. -/
def exNoteA : Note :=
  { uid := "n1", version := 3,
    payload := { title := some "T", content := some "x\n" } }

/-- Annotated hunks for the full deletion `"x\n"` → `""`: one removed
hunk `h1`. -/
def exHunksA : List DiffHunk :=
  annotateHunksWithIds (computeLineDiff "x\n" "" (exDiffer0 "x\n" "") {})

/-- Store holding one session `s1` proposing to empty the note `"x\n"`. -/
def exStoreA : SessionStore :=
  (createSession [] "s1" 0 exNoteA "" none none exHunksA).2

/-- The session value stored in `exStoreA`. -/
def exSessionA : NoteEditSession :=
  createSessionValue "s1" 0 exNoteA "" none none exHunksA

/-- `exStoreA` after accepting hunk `h1`: the session is fully resolved and
its `currentContent` is the empty string. -/
def exStoreA2 : SessionStore :=
  (setHunkStatus exDiffer0 exStoreA "s1" "h1" .accepted none).2

/-- The session value stored in `exStoreA2`. -/
def exSessionA2 : NoteEditSession :=
  { exSessionA with
    hunks := updateHunk "h1" .accepted none exSessionA.hunks,
    currentContent := some "" }

/-- A note with empty content. -/
def exNoteB : Note :=
  { uid := "n0", version := 1,
    payload := { title := some "B", content := some "" } }

/-- Store holding one session `s0` whose original and proposed contents are
both empty: the diff has no hunks at all. -/
def exStoreB : SessionStore :=
  (createSession [] "s0" 0 exNoteB "" none none
    (annotateHunksWithIds (computeLineDiff "" "" (exDiffer0 "" "") {}))).2

/-- The session value stored in `exStoreB`. -/
def exSessionB : NoteEditSession :=
  createSessionValue "s0" 0 exNoteB "" none none
    (annotateHunksWithIds (computeLineDiff "" "" (exDiffer0 "" "") {}))

/-- A note whose content is the one-line document `"a\n"`. -/
def exNoteC : Note :=
  { uid := "n2", version := 7,
    payload := { title := some "T2", content := some "a\n" } }

/-- Annotated hunks for `"a\n"` → `"b\n"`: one modified hunk `h1`. -/
def exHunksC : List DiffHunk :=
  annotateHunksWithIds (computeLineDiff "a\n" "b\n" (exDifferC "a\n" "b\n") {})

/-- Store holding one pending session `s2` proposing `"a\n"` → `"b\n"`. -/
def exStoreC : SessionStore :=
  (createSession [] "s2" 0 exNoteC "b\n" none none exHunksC).2

/-- The session value stored in `exStoreC`. -/
def exSessionC : NoteEditSession :=
  createSessionValue "s2" 0 exNoteC "b\n" none none exHunksC

/-- `exStoreC` after accepting hunk `h1`: fully resolved with
`currentContent = some "b\n"`. -/
def exStoreC2 : SessionStore :=
  (setHunkStatus exDifferC exStoreC "s2" "h1" .accepted none).2

/-- The session value stored in `exStoreC2`. -/
def exSessionC2 : NoteEditSession :=
  { exSessionC with
    hunks := updateHunk "h1" .accepted none exSessionC.hunks,
    currentContent := some "b\n" }

/-- Change runs for `"a\nb\n"` → `"a\nc\n"`: an equal run, a deleted run
and an inserted run. -/
def exChanges1 : List DiffChange :=
  [⟨.equal, "a\n", some 1⟩, ⟨.deleted, "b\n", some 1⟩,
   ⟨.inserted, "c\n", some 1⟩]

/-- The untruncated annotated hunks for `"a\nb\n"` → `"a\nc\n"`. -/
def exHunks1 : List DiffHunk :=
  annotateHunksWithIds
    (computeLineDiff "a\nb\n" "a\nc\n" exChanges1 { truncateUnchanged := false })

/-- Decisions accepting the single non-unchanged hunk `h2` of `exHunks1`. -/
def exDecAcc : List (String × HunkDecision) :=
  [("h2", { status := .accepted, revisedText := none })]

/-- Decisions rejecting the single non-unchanged hunk `h2` of `exHunks1`. -/
def exDecRej : List (String × HunkDecision) :=
  [("h2", { status := .rejected, revisedText := none })]

/-- A single six-line equal run, as `Diff.diffLines` reports when original
and proposed are the same six-line document. -/
def exChangesLong : List DiffChange :=
  [⟨.equal, "1\n2\n3\n4\n5\n6\n", some 6⟩]

/-- A standalone modified hunk with id `h2`, as the annotator produces for
`exChanges1`. -/
def exHunkMod : DiffHunk :=
  { kind := .modified, original := "b\n", proposed := "c\n", id := some "h2",
    origStart := some 2, origEnd := some 2, newStart := some 2, newEnd := some 2,
    origLineCount := some 1, newLineCount := some 1 }

/-- A decisions map deciding hunk `h2` as `revised` with a null revised
text. -/
def exDecRevNull : List (String × HunkDecision) :=
  [("h2", { status := .revised, revisedText := none })]

/-! Helper lemmas. -/

theorem changeToHunk_wf (opts : DiffOptions) (c : DiffChange) :
    WFHunk (changeToHunk opts c) := by
  cases c with
  | mk tag value count =>
    cases tag <;> simp [changeToHunk, WFHunk]

theorem mergeConsecutiveChanges_wf :
    ∀ hs : List DiffHunk, (∀ x ∈ hs, WFHunk x) →
      ∀ x ∈ mergeConsecutiveChanges hs, WFHunk x
  | [], _ => by simp [mergeConsecutiveChanges]
  | [c], h => by simpa [mergeConsecutiveChanges] using h
  | c :: n :: rest, h => by
    intro x hx
    rw [mergeConsecutiveChanges] at hx
    by_cases hc : c.kind = HunkKind.removed ∧ n.kind = HunkKind.added
    · rw [if_pos hc] at hx
      rcases List.mem_cons.mp hx with rfl | hx
      · exact ⟨by simp [mkModified], by simp [mkModified], by simp [mkModified]⟩
      · exact mergeConsecutiveChanges_wf rest
          (fun y hy => h y (by simp [hy])) x hx
    · rw [if_neg hc] at hx
      rcases List.mem_cons.mp hx with rfl | hx
      · exact h x (by simp)
      · exact mergeConsecutiveChanges_wf (n :: rest)
          (fun y hy => h y (List.mem_cons_of_mem _ hy)) x hx

theorem computeLineDiff_wf (o p : String) (cs : List DiffChange)
    (opts : DiffOptions) : ∀ x ∈ computeLineDiff o p cs opts, WFHunk x := by
  unfold computeLineDiff
  split
  · simp
  · split
    · simp [WFHunk]
    · split
      · simp [WFHunk]
      · exact mergeConsecutiveChanges_wf _
          (by
            intro x hx
            rcases List.mem_map.mp hx with ⟨c, _, rfl⟩
            exact changeToHunk_wf opts c)

theorem concatStrs_map_congr {α : Type} (f g : α → String) :
    ∀ l : List α, (∀ a ∈ l, f a = g a) →
      concatStrs (l.map f) = concatStrs (l.map g)
  | [], _ => rfl
  | a :: rest, h => by
    simp only [List.map_cons, concatStrs]
    rw [h a (by simp), concatStrs_map_congr f g rest (fun x hx => h x (by simp [hx]))]

theorem mergeConsecutiveChanges_concat :
    ∀ hs : List DiffHunk, (∀ x ∈ hs, WFHunk x) →
      concatOriginals (mergeConsecutiveChanges hs) = concatOriginals hs ∧
      concatProposeds (mergeConsecutiveChanges hs) = concatProposeds hs
  | [], _ => ⟨rfl, rfl⟩
  | [c], _ => ⟨rfl, rfl⟩
  | c :: n :: rest, h => by
    have hrest : ∀ x ∈ rest, WFHunk x := fun y hy => h y (by simp [hy])
    rw [mergeConsecutiveChanges]
    by_cases hc : c.kind = HunkKind.removed ∧ n.kind = HunkKind.added
    · rw [if_pos hc]
      have ihr := mergeConsecutiveChanges_concat rest hrest
      have hnorig : n.original = "" := (h n (by simp)).2.1 hc.2
      have hcprop : c.proposed = "" := (h c (by simp)).2.2 hc.1
      simp only [concatOriginals, concatProposeds, List.map_cons, concatStrs,
        mkModified] at ihr ⊢
      constructor
      · rw [ihr.1, hnorig]
        rfl
      · rw [ihr.2, hcprop]
        rfl
    · rw [if_neg hc]
      have ihr := mergeConsecutiveChanges_concat (n :: rest)
        (fun y hy => h y (List.mem_cons_of_mem _ hy))
      constructor
      · simp only [concatOriginals, List.map_cons, concatStrs] at ihr ⊢
        rw [ihr.1]
      · simp only [concatProposeds, List.map_cons, concatStrs] at ihr ⊢
        rw [ihr.2]

theorem changeToHunk_texts (m : Nat) (c : DiffChange) :
    (changeToHunk { maxUnchangedLines := m, truncateUnchanged := false } c).original
        = c.origText ∧
    (changeToHunk { maxUnchangedLines := m, truncateUnchanged := false } c).proposed
        = c.newText := by
  cases c with
  | mk tag value count =>
    cases tag <;> simp [changeToHunk, DiffChange.origText, DiffChange.newText]

theorem jsStrEmpty_iff (s : String) : jsStrEmpty s = true ↔ s = "" := by
  constructor
  · intro h
    cases s with
    | mk data =>
      cases data with
      | nil => rfl
      | cons c cs => simp [jsStrEmpty] at h
  · intro h
    subst h
    rfl

theorem str_append_empty (s : String) : s ++ "" = s := by
  cases s with
  | mk data =>
    show String.mk (data ++ []) = String.mk data
    rw [List.append_nil]

theorem computeLineDiff_coverage (o p : String) (cs : List DiffChange)
    (m : Nat) (hv : ValidChanges o p cs) :
    concatOriginals
        (computeLineDiff o p cs { maxUnchangedLines := m, truncateUnchanged := false }) = o ∧
    concatProposeds
        (computeLineDiff o p cs { maxUnchangedLines := m, truncateUnchanged := false }) = p := by
  unfold computeLineDiff
  split
  · rename_i hb
    rw [Bool.and_eq_true] at hb
    rw [(jsStrEmpty_iff o).mp hb.1, (jsStrEmpty_iff p).mp hb.2]
    exact ⟨rfl, rfl⟩
  · split
    · rename_i ho
      rw [(jsStrEmpty_iff o).mp ho]
      constructor
      · rfl
      · simp [concatProposeds, concatStrs, str_append_empty]
    · split
      · rename_i hp
        rw [(jsStrEmpty_iff p).mp hp]
        constructor
        · simp [concatOriginals, concatStrs, str_append_empty]
        · rfl
      · have hwf : ∀ x ∈ cs.map (changeToHunk { maxUnchangedLines := m, truncateUnchanged := false }), WFHunk x := by
          intro x hx
          rcases List.mem_map.mp hx with ⟨c, _, rfl⟩
          exact changeToHunk_wf _ c
        have hm := mergeConsecutiveChanges_concat _ hwf
        rw [hm.1, hm.2]
        constructor
        · rw [concatOriginals, List.map_map]
          rw [show ((fun h => h.original) ∘ changeToHunk { maxUnchangedLines := m, truncateUnchanged := false })
              = fun c => (changeToHunk { maxUnchangedLines := m, truncateUnchanged := false } c).original from rfl]
          rw [concatStrs_map_congr _ DiffChange.origText cs
            (fun c _ => (changeToHunk_texts m c).1)]
          exact hv.1
        · rw [concatProposeds, List.map_map]
          rw [show ((fun h => h.proposed) ∘ changeToHunk { maxUnchangedLines := m, truncateUnchanged := false })
              = fun c => (changeToHunk { maxUnchangedLines := m, truncateUnchanged := false } c).proposed from rfl]
          rw [concatStrs_map_congr _ DiffChange.newText cs
            (fun c _ => (changeToHunk_texts m c).2)]
          exact hv.2

theorem annotateGo_originals :
    ∀ (hs : List DiffHunk) (i a b : Nat),
      (annotateGo hs i a b).map (fun h => h.original) = hs.map (fun h => h.original) := by
  intro hs
  induction hs with
  | nil => intro i a b; rfl
  | cons h rest ih =>
    intro i a b
    simp only [annotateGo, List.map_cons, ih]

theorem annotateGo_proposeds :
    ∀ (hs : List DiffHunk) (i a b : Nat),
      (annotateGo hs i a b).map (fun h => h.proposed) = hs.map (fun h => h.proposed) := by
  intro hs
  induction hs with
  | nil => intro i a b; rfl
  | cons h rest ih =>
    intro i a b
    simp only [annotateGo, List.map_cons, ih]

theorem annotateGo_wf :
    ∀ (hs : List DiffHunk) (i a b : Nat), (∀ x ∈ hs, WFHunk x) →
      ∀ x ∈ annotateGo hs i a b, WFHunk x := by
  intro hs
  induction hs with
  | nil => intro i a b _ x hx; simp [annotateGo] at hx
  | cons h rest ih =>
    intro i a b hwf x hx
    rw [annotateGo] at hx
    rcases List.mem_cons.mp hx with rfl | hx
    · exact hwf h (by simp)
    · exact ih _ _ _ (fun y hy => hwf y (by simp [hy])) x hx

theorem annotate_originals (hs : List DiffHunk) :
    concatOriginals (annotateHunksWithIds hs) = concatOriginals hs := by
  simp only [concatOriginals, annotateHunksWithIds, annotateGo_originals]

theorem annotate_proposeds (hs : List DiffHunk) :
    concatProposeds (annotateHunksWithIds hs) = concatProposeds hs := by
  simp only [concatProposeds, annotateHunksWithIds, annotateGo_proposeds]


theorem applyHunkDecisions_spec (decisions : List (String × HunkDecision)) :
    ∀ hunks : List DiffHunk,
      applyHunkDecisions hunks decisions =
        match hunks.find? (unresolvedFor decisions) with
        | some h => .error (pendingErrorMsg (h.id.getD ""))
        | none => .ok (concatStrs (hunks.map (tableContribution decisions))) := by
  intro hunks
  induction hunks with
  | nil => rfl
  | cons h rest ih =>
    by_cases hk : h.kind = HunkKind.unchanged
    · rw [List.find?_cons_of_neg _ (by simp [unresolvedFor, hk])]
      show (applyHunkDecisions (h :: rest) decisions) = _
      simp only [applyHunkDecisions, if_pos hk, ih]
      cases hfind : rest.find? (unresolvedFor decisions) with
      | some h0 => simp [hfind, Except.map]
      | none => simp [hfind, Except.map, tableContribution, hk, concatStrs]
    · cases hget : jsMapGet decisions (h.id.getD "") with
      | none =>
        rw [List.find?_cons_of_pos _ (by simp [unresolvedFor, hk, hget])]
        simp only [applyHunkDecisions, if_neg hk, hget]
      | some d =>
        by_cases hst : d.status = HunkStatus.pending
        · rw [List.find?_cons_of_pos _ (by simp [unresolvedFor, hk, hget, hst])]
          simp only [applyHunkDecisions, if_neg hk, hget, if_pos hst]
        · rw [List.find?_cons_of_neg _ (by simp [unresolvedFor, hk, hget, hst])]
          simp only [applyHunkDecisions, if_neg hk, hget, if_neg hst, ih]
          cases hfind : rest.find? (unresolvedFor decisions) with
          | some h0 => simp [hfind, Except.map]
          | none =>
            simp only [hfind, Except.map, concatStrs, List.map_cons]
            congr 1
            simp only [tableContribution, if_neg hk, hget]
            cases hd : d.status with
            | pending => exact absurd hd hst
            | accepted => simp [hd]
            | rejected => simp [hd]
            | revised => cases d.revisedText <;> simp [hd, Option.getD]

theorem apply_all_accepted (hunks : List DiffHunk)
    (decisions : List (String × HunkDecision))
    (hwf : ∀ x ∈ hunks, WFHunk x)
    (hdec : ∀ h ∈ hunks, h.kind ≠ HunkKind.unchanged →
      decidedAs decisions .accepted h = true) :
    applyHunkDecisions hunks decisions = .ok (concatProposeds hunks) := by
  have hnone : hunks.find? (unresolvedFor decisions) = none := by
    rw [List.find?_eq_none]
    intro x hx
    by_cases hk : x.kind = HunkKind.unchanged
    · simp [unresolvedFor, hk]
    · have := hdec x hx hk
      rw [decidedAs] at this
      cases hget : jsMapGet decisions (x.id.getD "") with
      | none => rw [hget] at this; exact absurd this (by simp)
      | some d =>
        rw [hget] at this
        have hst : d.status = HunkStatus.accepted := by
          simpa using this
        simp [unresolvedFor, hget, hst]
  rw [applyHunkDecisions_spec, hnone]
  show Except.ok (concatStrs (hunks.map (tableContribution decisions)))
      = Except.ok (concatProposeds hunks)
  congr 1
  rw [concatProposeds]
  apply concatStrs_map_congr
  intro x hx
  by_cases hk : x.kind = HunkKind.unchanged
  · rw [tableContribution, if_pos hk]
    exact ((hwf x hx).1 hk)
  · have := hdec x hx hk
    rw [decidedAs] at this
    cases hget : jsMapGet decisions (x.id.getD "") with
    | none => rw [hget] at this; exact absurd this (by simp)
    | some d =>
      rw [hget] at this
      have hst : d.status = HunkStatus.accepted := by simpa using this
      by_cases hr : x.kind = HunkKind.removed
      · simp [tableContribution, hk, hget, hst, hr, (hwf x hx).2.2 hr]
      · simp [tableContribution, hk, hget, hst, hr]

theorem apply_all_rejected (hunks : List DiffHunk)
    (decisions : List (String × HunkDecision))
    (hwf : ∀ x ∈ hunks, WFHunk x)
    (hdec : ∀ h ∈ hunks, h.kind ≠ HunkKind.unchanged →
      decidedAs decisions .rejected h = true) :
    applyHunkDecisions hunks decisions = .ok (concatOriginals hunks) := by
  have hnone : hunks.find? (unresolvedFor decisions) = none := by
    rw [List.find?_eq_none]
    intro x hx
    by_cases hk : x.kind = HunkKind.unchanged
    · simp [unresolvedFor, hk]
    · have := hdec x hx hk
      rw [decidedAs] at this
      cases hget : jsMapGet decisions (x.id.getD "") with
      | none => rw [hget] at this; exact absurd this (by simp)
      | some d =>
        rw [hget] at this
        have hst : d.status = HunkStatus.rejected := by simpa using this
        simp [unresolvedFor, hget, hst]
  rw [applyHunkDecisions_spec, hnone]
  show Except.ok (concatStrs (hunks.map (tableContribution decisions)))
      = Except.ok (concatOriginals hunks)
  congr 1
  rw [concatOriginals]
  apply concatStrs_map_congr
  intro x hx
  by_cases hk : x.kind = HunkKind.unchanged
  · rw [tableContribution, if_pos hk]
  · have := hdec x hx hk
    rw [decidedAs] at this
    cases hget : jsMapGet decisions (x.id.getD "") with
    | none => rw [hget] at this; exact absurd this (by simp)
    | some d =>
      rw [hget] at this
      have hst : d.status = HunkStatus.rejected := by simpa using this
      by_cases ha : x.kind = HunkKind.added
      · simp [tableContribution, hk, hget, hst, ha, (hwf x hx).2.1 ha]
      · simp [tableContribution, hk, hget, hst, ha]

theorem updateHunk_ids (hunkId : String) (st : HunkStatus) (rt : Option String) :
    ∀ hs : List NoteEditHunkState,
      (updateHunk hunkId st rt hs).map (fun h => h.id) = hs.map (fun h => h.id)
  | [] => rfl
  | h :: rest => by
    rw [updateHunk]
    by_cases hid : h.id = hunkId
    · rw [if_pos hid]
      simp
    · rw [if_neg hid]
      simp [updateHunk_ids hunkId st rt rest]

theorem updateHunk_matches (hunkId : String) (st : HunkStatus)
    (rt : Option String) :
    ∀ (hs : List NoteEditHunkState) (dhs : List DiffHunk),
      matchesSkeleton hs dhs = true →
      matchesSkeleton (updateHunk hunkId st rt hs) dhs = true := by
  intro hs
  induction hs with
  | nil => intro dhs hm; simpa [updateHunk] using hm
  | cons h rest ih =>
    intro dhs hm
    cases dhs with
    | nil => simp [matchesSkeleton] at hm
    | cons dh restD =>
      rw [matchesSkeleton] at hm
      rw [updateHunk]
      by_cases hid : h.id = hunkId
      · rw [if_pos hid, matchesSkeleton]
        exact hm
      · rw [if_neg hid, matchesSkeleton]
        rw [Bool.and_eq_true, Bool.and_eq_true] at hm ⊢
        exact ⟨hm.1, ih restD hm.2⟩

theorem matchesSkeleton_mem :
    ∀ (hs : List NoteEditHunkState) (dhs : List DiffHunk),
      matchesSkeleton hs dhs = true →
      ∀ dh ∈ dhs, ∃ h0 ∈ hs, h0.id = dh.id.getD "" ∧ h0.kind = dh.kind := by
  intro hs
  induction hs with
  | nil =>
    intro dhs hm dh hdh
    cases dhs with
    | nil => simp at hdh
    | cons a b => simp [matchesSkeleton] at hm
  | cons h rest ih =>
    intro dhs hm dh hdh
    cases dhs with
    | nil => simp at hdh
    | cons dh0 restD =>
      rw [matchesSkeleton, Bool.and_eq_true, Bool.and_eq_true] at hm
      rcases List.mem_cons.mp hdh with rfl | hdh'
      · exact ⟨h, by simp, by simpa using hm.1.1, by simpa using hm.1.2⟩
      · obtain ⟨h0, hh0, he⟩ := ih restD hm.2 dh hdh'
        exact ⟨h0, by simp [hh0], he⟩

theorem decisionsOfHunks_aux :
    ∀ (hs : List NoteEditHunkState) (m : List (String × HunkDecision)),
      (∀ h ∈ hs, jsStrEmpty h.id = false) →
      (hs.map (fun h => h.id)).Nodup →
      (∀ h ∈ hs, ∀ q ∈ m, q.1 ≠ h.id) →
      hs.foldl
        (fun m h =>
          if jsStrEmpty h.id then m
          else jsMapSet m h.id { status := h.status, revisedText := h.revisedText })
        m
        = m ++ hs.map
            (fun h => (h.id,
              ({ status := h.status, revisedText := h.revisedText } : HunkDecision))) := by
  intro hs
  induction hs with
  | nil => intro m _ _ _; simp
  | cons h rest ih =>
    intro m hne hnd hdisj
    rw [List.foldl_cons]
    have hne0 : jsStrEmpty h.id = false := hne h (by simp)
    rw [if_neg (by simp [hne0])]
    have hany : m.any (fun q => q.1 == h.id) = false := by
      rw [List.any_eq_false]
      intro q hq
      simp [hdisj h (by simp) q hq]
    rw [jsMapSet, hany]
    simp only [Bool.false_eq_true, if_false]
    rw [List.map_cons] at hnd
    obtain ⟨hni, hnd'⟩ := List.nodup_cons.mp hnd
    have hdisj2 : ∀ x ∈ rest,
        ∀ q ∈ m ++ [(h.id,
          ({ status := h.status, revisedText := h.revisedText } : HunkDecision))],
          q.1 ≠ x.id := by
      intro x hx q hq
      rcases List.mem_append.mp hq with hq' | hq'
      · exact hdisj x (by simp [hx]) q hq'
      · rcases List.mem_singleton.mp hq' with rfl
        intro he
        apply hni
        rw [show h.id = x.id from he]
        exact List.mem_map_of_mem _ hx
    have hih := ih
      (m ++ [(h.id, { status := h.status, revisedText := h.revisedText })])
      (fun x hx => hne x (by simp [hx])) hnd' hdisj2
    rw [hih]
    simp

theorem decisionsOfHunks_eq (hs : List NoteEditHunkState)
    (hne : ∀ h ∈ hs, jsStrEmpty h.id = false)
    (hnd : (hs.map (fun h => h.id)).Nodup) :
    decisionsOfHunks hs
      = hs.map (fun h => (h.id,
          ({ status := h.status, revisedText := h.revisedText } : HunkDecision))) := by
  have := decisionsOfHunks_aux hs [] hne hnd (by simp)
  simpa [decisionsOfHunks] using this

theorem jsMapGet_entries :
    ∀ (hs : List NoteEditHunkState) (h0 : NoteEditHunkState),
      (hs.map (fun h => h.id)).Nodup → h0 ∈ hs →
      jsMapGet
        (hs.map (fun h => (h.id,
          ({ status := h.status, revisedText := h.revisedText } : HunkDecision))))
        h0.id
        = some { status := h0.status, revisedText := h0.revisedText } := by
  intro hs
  induction hs with
  | nil => intro h0 _ hmem; simp at hmem
  | cons h rest ih =>
    intro h0 hnd hmem
    rw [List.map_cons] at hnd
    obtain ⟨hni, hnd'⟩ := List.nodup_cons.mp hnd
    rcases List.mem_cons.mp hmem with rfl | hmem'
    · simp only [List.map_cons, jsMapGet]
      rw [List.find?_cons_of_pos _ (by simp)]
      rfl
    · have hneq : h.id ≠ h0.id := by
        intro he
        exact hni (he ▸ List.mem_map_of_mem _ hmem')
      simp only [List.map_cons, jsMapGet]
      rw [List.find?_cons_of_neg _ (by simp [hneq])]
      exact ih h0 hnd' hmem'

theorem aligned_no_unresolved (hs : List NoteEditHunkState)
    (dhs : List DiffHunk)
    (hmatch : matchesSkeleton hs dhs = true)
    (hpend : anyPendingChanged hs = false)
    (hne : ∀ h ∈ hs, jsStrEmpty h.id = false)
    (hnd : (hs.map (fun h => h.id)).Nodup) :
    ∀ dh ∈ dhs, unresolvedFor (decisionsOfHunks hs) dh = false := by
  intro dh hdh
  by_cases hk : dh.kind = HunkKind.unchanged
  · simp [unresolvedFor, hk]
  · obtain ⟨h0, hh0, hid, hkind⟩ := matchesSkeleton_mem hs dhs hmatch dh hdh
    have hget : jsMapGet (decisionsOfHunks hs) (dh.id.getD "")
        = some { status := h0.status, revisedText := h0.revisedText } := by
      rw [decisionsOfHunks_eq hs hne hnd, ← hid]
      exact jsMapGet_entries hs h0 hnd hh0
    have hstatus : h0.status ≠ HunkStatus.pending := by
      intro hp
      have hne2 : anyPendingChanged hs = true := by
        rw [anyPendingChanged, List.any_eq_true]
        refine ⟨h0, hh0, ?_⟩
        simp [hp, hkind, hk]
      rw [hpend] at hne2
      exact absurd hne2 (by simp)
    simp [unresolvedFor, hk, hget, hstatus]

theorem recompute_resolved (differ : String → String → List DiffChange)
    (session : NoteEditSession)
    (hmatch : matchesSkeleton session.hunks (fullHunksOf differ session) = true)
    (hne : ∀ h ∈ session.hunks, jsStrEmpty h.id = false)
    (hnd : (session.hunks.map (fun h => h.id)).Nodup)
    (hpend : anyPendingChanged session.hunks = false) :
    ∃ content,
      applyHunkDecisions (fullHunksOf differ session)
        (decisionsOfHunks session.hunks) = .ok content ∧
      recomputeCurrentContent differ session
        = { session with currentContent := some content } := by
  have hnores : (fullHunksOf differ session).find?
      (unresolvedFor (decisionsOfHunks session.hunks)) = none := by
    rw [List.find?_eq_none]
    intro x hx
    simp [aligned_no_unresolved session.hunks _ hmatch hpend hne hnd x hx]
  have happly := applyHunkDecisions_spec (decisionsOfHunks session.hunks)
    (fullHunksOf differ session)
  rw [hnores] at happly
  refine ⟨_, happly, ?_⟩
  rw [recomputeCurrentContent, if_neg (by simp [hpend])]
  simp only [happly]

theorem recompute_shape (differ : String → String → List DiffChange)
    (s : NoteEditSession) :
    recomputeCurrentContent differ s
      = { s with currentContent := (recomputeCurrentContent differ s).currentContent } := by
  simp only [recomputeCurrentContent]
  split
  · rfl
  · split <;> rfl

theorem updateHunk_noop (hunkId : String) (st : HunkStatus) (rt : Option String) :
    ∀ hs : List NoteEditHunkState, (∀ h ∈ hs, h.id ≠ hunkId) →
      updateHunk hunkId st rt hs = hs
  | [], _ => rfl
  | h :: rest, hne => by
    rw [updateHunk, if_neg (hne h (by simp))]
    rw [updateHunk_noop hunkId st rt rest (fun x hx => hne x (by simp [hx]))]

theorem updateHunk_mem (hunkId : String) (st : HunkStatus) (rt : Option String) :
    ∀ hs : List NoteEditHunkState, (∃ h0 ∈ hs, h0.id = hunkId) →
      ∃ h' ∈ updateHunk hunkId st rt hs,
        h'.id = hunkId ∧ h'.status = st ∧
        h'.revisedText = (if st = .revised then rt else none) := by
  intro hs
  induction hs with
  | nil => rintro ⟨h0, hmem, _⟩; simp at hmem
  | cons h rest ih =>
    rintro ⟨h0, hmem, hid⟩
    rw [updateHunk]
    by_cases hh : h.id = hunkId
    · refine ⟨_, by rw [if_pos hh]; exact List.mem_cons_self _ _, by simpa using hh, rfl, rfl⟩
    · rw [if_neg hh]
      rcases List.mem_cons.mp hmem with rfl | hmem'
      · exact absurd hid hh
      · obtain ⟨h', hm', hp⟩ := ih ⟨h0, hmem', hid⟩
        exact ⟨h', by simp [hm'], hp⟩

/-! Claim theorems. -/

/-- C1: for every (original, proposed) pair and any valid line-diff run
sequence, reconciling the untruncated annotated hunk sequence (the one the
store reconstructs from) with every non-unchanged hunk decided accepted
yields exactly the proposed string, and with every non-unchanged hunk
decided rejected yields exactly the original string. -/
theorem claim_C1 (o p : String) (cs : List DiffChange)
    (decisions : List (String × HunkDecision)) (hv : ValidChanges o p cs) :
    ((∀ h ∈ annotateHunksWithIds
        (computeLineDiff o p cs { truncateUnchanged := false }),
        h.kind ≠ HunkKind.unchanged → decidedAs decisions .accepted h = true) →
      applyHunkDecisions
        (annotateHunksWithIds (computeLineDiff o p cs { truncateUnchanged := false }))
        decisions = .ok p) ∧
    ((∀ h ∈ annotateHunksWithIds
        (computeLineDiff o p cs { truncateUnchanged := false }),
        h.kind ≠ HunkKind.unchanged → decidedAs decisions .rejected h = true) →
      applyHunkDecisions
        (annotateHunksWithIds (computeLineDiff o p cs { truncateUnchanged := false }))
        decisions = .ok o) := by
  have hwf : ∀ x ∈ annotateHunksWithIds
      (computeLineDiff o p cs { truncateUnchanged := false }), WFHunk x :=
    annotateGo_wf _ 0 1 1 (computeLineDiff_wf o p cs _)
  have hcov := computeLineDiff_coverage o p cs 5 hv
  constructor
  · intro hdec
    rw [apply_all_accepted _ _ hwf hdec, annotate_proposeds, hcov.2]
  · intro hdec
    rw [apply_all_rejected _ _ hwf hdec, annotate_originals, hcov.1]

/-- Witness for C1 at a concrete one-line modification. -/
theorem claim_C1_witness :
    ValidChanges "a\nb\n" "a\nc\n" exChanges1 ∧
    applyHunkDecisions exHunks1 exDecAcc = .ok "a\nc\n" ∧
    applyHunkDecisions exHunks1 exDecRej = .ok "a\nb\n" :=
  ⟨⟨rfl, rfl⟩,
   (claim_C1 "a\nb\n" "a\nc\n" exChanges1 exDecAcc ⟨rfl, rfl⟩).1 (by decide),
   (claim_C1 "a\nb\n" "a\nc\n" exChanges1 exDecRej ⟨rfl, rfl⟩).2 (by decide)⟩

/-- C4 counterexample: with the differ's default options (display
truncation enabled), a six-line unchanged run is elided, so concatenating
the hunks' texts does not reproduce the documents. -/
theorem claim_C4_counterexample :
    ValidChanges "1\n2\n3\n4\n5\n6\n" "1\n2\n3\n4\n5\n6\n" exChangesLong ∧
    concatOriginals
        (computeLineDiff "1\n2\n3\n4\n5\n6\n" "1\n2\n3\n4\n5\n6\n" exChangesLong {})
      ≠ "1\n2\n3\n4\n5\n6\n" ∧
    concatProposeds
        (computeLineDiff "1\n2\n3\n4\n5\n6\n" "1\n2\n3\n4\n5\n6\n" exChangesLong {})
      ≠ "1\n2\n3\n4\n5\n6\n" :=
  ⟨⟨rfl, rfl⟩, by decide, by decide⟩

/-- C4 as amended: with unchanged-run truncation disabled (the mode used
for reconstruction), the hunk sequence covers both documents exactly for
every valid run sequence. -/
theorem claim_C4 (o p : String) (cs : List DiffChange) (m : Nat)
    (hv : ValidChanges o p cs) :
    concatOriginals
        (computeLineDiff o p cs { maxUnchangedLines := m, truncateUnchanged := false })
      = o ∧
    concatProposeds
        (computeLineDiff o p cs { maxUnchangedLines := m, truncateUnchanged := false })
      = p :=
  computeLineDiff_coverage o p cs m hv

/-- Witness for C4 at a concrete one-line modification. -/
theorem claim_C4_witness :
    ValidChanges "a\nb\n" "a\nc\n" exChanges1 ∧
    concatOriginals
        (computeLineDiff "a\nb\n" "a\nc\n" exChanges1
          { maxUnchangedLines := 5, truncateUnchanged := false }) = "a\nb\n" ∧
    concatProposeds
        (computeLineDiff "a\nb\n" "a\nc\n" exChanges1
          { maxUnchangedLines := 5, truncateUnchanged := false }) = "a\nc\n" :=
  ⟨⟨rfl, rfl⟩,
   (claim_C4 "a\nb\n" "a\nc\n" exChanges1 5 ⟨rfl, rfl⟩).1,
   (claim_C4 "a\nb\n" "a\nc\n" exChanges1 5 ⟨rfl, rfl⟩).2⟩

/-- C6: reconciliation is all-or-nothing.  If some non-unchanged hunk has a
missing or pending decision, the result is the error naming the first such
hunk's id and no document is produced; otherwise it is the concatenation,
in hunk order, of the per-hunk contributions of the kind-by-status table
(`tableContribution`; a revised decision with a null revised text
contributes the empty string, see C10). -/
theorem claim_C6 (hunks : List DiffHunk)
    (decisions : List (String × HunkDecision)) :
    applyHunkDecisions hunks decisions =
      match hunks.find? (unresolvedFor decisions) with
      | some h => .error (pendingErrorMsg (h.id.getD ""))
      | none => .ok (concatStrs (hunks.map (tableContribution decisions))) :=
  applyHunkDecisions_spec decisions hunks

/-- C10: a revised decision with a null revised text makes reconciliation
silently drop the hunk's text (the hunk contributes nothing, no failure),
and `setHunkStatus` with status revised and no revised text creates exactly
this state on the addressed hunk. -/
theorem claim_C10 :
    (∀ (h : DiffHunk) (rest : List DiffHunk)
        (decisions : List (String × HunkDecision)),
      h.kind ≠ HunkKind.unchanged →
      jsMapGet decisions (h.id.getD "")
        = some { status := .revised, revisedText := none } →
      applyHunkDecisions (h :: rest) decisions
        = applyHunkDecisions rest decisions) ∧
    (∀ (differ : String → String → List DiffChange) (store : SessionStore)
        (editId hunkId : String) (session : NoteEditSession),
      jsMapGet store editId = some session →
      (∃ h0 ∈ session.hunks, h0.id = hunkId) →
      ∃ session',
        (setHunkStatus differ store editId hunkId .revised none).1
          = some session' ∧
        ∃ h' ∈ session'.hunks,
          h'.id = hunkId ∧ h'.status = .revised ∧ h'.revisedText = none) := by
  constructor
  · intro h rest decisions hk hget
    rw [applyHunkDecisions, if_neg hk, hget]
    cases applyHunkDecisions rest decisions <;> rfl
  · intro differ store editId hunkId session hget hmem
    obtain ⟨h', hm', hid', hst', hrt'⟩ :=
      updateHunk_mem hunkId .revised none session.hunks hmem
    refine ⟨recomputeCurrentContent differ
      { session with hunks := updateHunk hunkId .revised none session.hunks },
      by simp only [setHunkStatus, hget], ?_⟩
    have hh : (recomputeCurrentContent differ
        { session with hunks := updateHunk hunkId .revised none session.hunks }).hunks
        = updateHunk hunkId .revised none session.hunks := by
      rw [recompute_shape]
    rw [hh]
    exact ⟨h', hm', hid', hst', by simpa using hrt'⟩

/-- Witness for C10: a concrete revised-with-null decision drops the hunk,
and a concrete store call creates that state. -/
theorem claim_C10_witness :
    jsMapGet exDecRevNull "h2"
      = some { status := HunkStatus.revised, revisedText := none } ∧
    applyHunkDecisions [exHunkMod] exDecRevNull
      = applyHunkDecisions [] exDecRevNull ∧
    (∃ session',
      (setHunkStatus exDiffer0 exStoreA "s1" "h1" .revised none).1
        = some session' ∧
      ∃ h' ∈ session'.hunks,
        h'.id = "h1" ∧ h'.status = .revised ∧ h'.revisedText = none) :=
  ⟨rfl,
   claim_C10.1 exHunkMod [] exDecRevNull (by decide) rfl,
   claim_C10.2 exDiffer0 exStoreA "s1" "h1" exSessionA (by decide) (by decide)⟩

/-- C3 counterexample: a session created from identical (empty) original
and proposed content has no pending non-unchanged hunk and its
reconstruction succeeds (with the empty document), yet `currentContent` is
null immediately after creation. -/
theorem claim_C3_counterexample :
    getSession exStoreB "s0" = some exSessionB ∧
    anyPendingChanged exSessionB.hunks = false ∧
    applyHunkDecisions (fullHunksOf exDiffer0 exSessionB)
      (decisionsOfHunks exSessionB.hunks) = .ok "" ∧
    exSessionB.currentContent = none :=
  ⟨by decide, rfl, rfl, rfl⟩

/-- C3 as amended: immediately after creation `currentContent` is always
null, even with no pending hunks; after any decision update on a session
whose hunk states align (in id and kind, with distinct non-empty ids) with
the recomputed untruncated hunk sequence, `currentContent` is null iff some
non-unchanged hunk is pending, and otherwise equals the successfully
reconciled document. -/
theorem claim_C3 :
    (∀ (sessionId : String) (now : Nat) (note : Note)
        (proposedContent : String) (summary userId : Option String)
        (hunks : List DiffHunk),
      (createSessionValue sessionId now note proposedContent summary userId
        hunks).currentContent = none) ∧
    (∀ (differ : String → String → List DiffChange) (store : SessionStore)
        (editId hunkId : String) (status : HunkStatus)
        (rtext : Option String) (session session' : NoteEditSession),
      jsMapGet store editId = some session →
      matchesSkeleton session.hunks (fullHunksOf differ session) = true →
      (∀ h ∈ session.hunks, jsStrEmpty h.id = false) →
      (session.hunks.map (fun h => h.id)).Nodup →
      (setHunkStatus differ store editId hunkId status rtext).1
        = some session' →
      (anyPendingChanged session'.hunks = true →
        session'.currentContent = none) ∧
      (anyPendingChanged session'.hunks = false →
        ∃ content,
          applyHunkDecisions (fullHunksOf differ session)
            (decisionsOfHunks session'.hunks) = .ok content ∧
          session'.currentContent = some content)) := by
  constructor
  · intro sessionId now note proposedContent summary userId hunks
    rfl
  · intro differ store editId hunkId status rtext session session'
      hget hmatch hne hnd hset
    simp only [setHunkStatus, hget] at hset
    set updatedS : NoteEditSession :=
      { session with hunks := updateHunk hunkId status rtext session.hunks }
      with hupdS
    have hsession' : session' = recomputeCurrentContent differ updatedS := by
      have := hset
      injection this with h1
      exact h1.symm
    have hfull : fullHunksOf differ updatedS = fullHunksOf differ session := rfl
    have hids : updatedS.hunks.map (fun h => h.id)
        = session.hunks.map (fun h => h.id) := updateHunk_ids _ _ _ _
    have hne' : ∀ h ∈ updatedS.hunks, jsStrEmpty h.id = false := by
      intro h hh
      have : h.id ∈ updatedS.hunks.map (fun h => h.id) :=
        List.mem_map_of_mem _ hh
      rw [hids] at this
      obtain ⟨h0, hh0, he⟩ := List.mem_map.mp this
      rw [← he]
      exact hne h0 hh0
    have hnd' : (updatedS.hunks.map (fun h => h.id)).Nodup := by
      rw [hids]; exact hnd
    have hmatch' : matchesSkeleton updatedS.hunks (fullHunksOf differ updatedS)
        = true := by
      rw [hfull]
      exact updateHunk_matches _ _ _ _ _ hmatch
    have hhunks : session'.hunks = updatedS.hunks := by
      rw [hsession', recompute_shape]
    constructor
    · intro hpend
      rw [hhunks] at hpend
      rw [hsession', recomputeCurrentContent, if_pos hpend]
    · intro hpend
      rw [hhunks] at hpend
      obtain ⟨content, happ, hrec⟩ :=
        recompute_resolved differ updatedS hmatch' hne' hnd' hpend
      refine ⟨content, ?_, ?_⟩
      · rw [hhunks, ← hfull]
        exact happ
      · rw [hsession', hrec]

/-- Witness for C3 at a concrete session: accepting the single modified
hunk resolves the session to the proposed document. -/
theorem claim_C3_witness :
    jsMapGet exStoreC "s2" = some exSessionC ∧
    matchesSkeleton exSessionC.hunks (fullHunksOf exDifferC exSessionC) = true ∧
    (setHunkStatus exDifferC exStoreC "s2" "h1" .accepted none).1
      = some exSessionC2 ∧
    ((anyPendingChanged exSessionC2.hunks = true →
        exSessionC2.currentContent = none) ∧
     (anyPendingChanged exSessionC2.hunks = false →
        ∃ content,
          applyHunkDecisions (fullHunksOf exDifferC exSessionC)
            (decisionsOfHunks exSessionC2.hunks) = .ok content ∧
          exSessionC2.currentContent = some content)) :=
  ⟨by decide, by decide, by decide,
   claim_C3.2 exDifferC exStoreC "s2" "h1" .accepted none exSessionC
     exSessionC2 (by decide) (by decide) (by decide) (by decide) (by decide)⟩

/-- C7 counterexample: on a freshly created session with no hunks at all, a
decision call with an unknown hunk id still triggers recomputation and
flips `currentContent` from null to the reconstructed document, so the
session is not returned entirely unchanged. -/
theorem claim_C7_counterexample :
    getSession exStoreB "s0" = some exSessionB ∧
    (∀ h ∈ exSessionB.hunks, h.id ≠ "zzz") ∧
    exSessionB.currentContent = none ∧
    ((setHunkStatus exDiffer0 exStoreB "s0" "zzz" .accepted none).1).map
      (fun s => s.currentContent) = some (some "") :=
  ⟨by decide, by decide, rfl, by decide⟩

/-- C7 as amended: a decision call with a hunk id absent from the session
returns the session (never an error) with all hunk states unchanged;
`currentContent` is recomputed, so the whole session is unchanged whenever
its `currentContent` already agreed with recomputation (as after any prior
decision call), but not necessarily on a fresh session. -/
theorem claim_C7 (differ : String → String → List DiffChange)
    (store : SessionStore) (editId hunkId : String) (status : HunkStatus)
    (rtext : Option String) (session : NoteEditSession)
    (hget : jsMapGet store editId = some session)
    (hno : ∀ h ∈ session.hunks, h.id ≠ hunkId) :
    ∃ session',
      (setHunkStatus differ store editId hunkId status rtext).1
        = some session' ∧
      session'.hunks = session.hunks ∧
      ((recomputeCurrentContent differ session).currentContent
          = session.currentContent → session' = session) := by
  have hupd : updateHunk hunkId status rtext session.hunks = session.hunks :=
    updateHunk_noop _ _ _ _ hno
  refine ⟨recomputeCurrentContent differ session, ?_, ?_, ?_⟩
  · simp only [setHunkStatus, hget, hupd]
  · rw [recompute_shape]
  · intro hcc
    rw [recompute_shape, hcc]

/-- Witness for C7 at a concrete resolved session: an unknown-id call
leaves the session exactly as it was. -/
theorem claim_C7_witness :
    jsMapGet exStoreA2 "s1" = some exSessionA2 ∧
    (∀ h ∈ exSessionA2.hunks, h.id ≠ "zzz") ∧
    ∃ session',
      (setHunkStatus exDiffer0 exStoreA2 "s1" "zzz" .rejected none).1
        = some session' ∧
      session'.hunks = exSessionA2.hunks ∧
      ((recomputeCurrentContent exDiffer0 exSessionA2).currentContent
          = exSessionA2.currentContent → session' = exSessionA2) :=
  ⟨by decide, by decide,
   claim_C7 exDiffer0 exStoreA2 "s1" "zzz" .rejected none exSessionA2
     (by decide) (by decide)⟩

theorem jsMapGet_none {α : Type} (m : List (String × α)) (k : String)
    (h : ∀ q ∈ m, q.1 ≠ k) : jsMapGet m k = none := by
  rw [jsMapGet, List.find?_eq_none.mpr]
  · rfl
  · intro q hq
    simp [h q hq]

theorem cleanup_lookup :
    ∀ (store : SessionStore) (editId : String) (now maxAgeMs : Nat),
      (store.map Prod.fst).Nodup →
      getSession (cleanupExpiredSessions store now maxAgeMs).1 editId =
        match getSession store editId with
        | some s => if now - s.createdAt > maxAgeMs then none else some s
        | none => none := by
  intro store
  induction store with
  | nil => intro editId now maxAgeMs _; rfl
  | cons q rest ih =>
    intro editId now maxAgeMs hnd
    rw [List.map_cons] at hnd
    obtain ⟨hni, hnd'⟩ := List.nodup_cons.mp hnd
    by_cases hk : q.1 = editId
    · have hhead : getSession (q :: rest) editId = some q.2 := by
        simp only [getSession, jsMapGet]
        rw [List.find?_cons_of_pos _ (by simp [hk])]
        rfl
      rw [hhead]
      show getSession (cleanupExpiredSessions (q :: rest) now maxAgeMs).1 editId
          = if now - q.2.createdAt > maxAgeMs then none else some q.2
      by_cases hexp : now - q.2.createdAt > maxAgeMs
      · rw [if_pos hexp]
        simp only [cleanupExpiredSessions]
        rw [List.filter_cons_of_neg (by simp [hexp])]
        apply jsMapGet_none
        intro x hx
        have hx' : x ∈ rest := List.mem_of_mem_filter hx
        intro he
        apply hni
        rw [hk, ← he]
        exact List.mem_map_of_mem _ hx'
      · rw [if_neg hexp]
        simp only [cleanupExpiredSessions]
        rw [List.filter_cons_of_pos (by simp [hexp])]
        simp only [getSession, jsMapGet]
        rw [List.find?_cons_of_pos _ (by simp [hk])]
        rfl
    · have hhead : getSession (q :: rest) editId = getSession rest editId := by
        simp only [getSession, jsMapGet]
        rw [List.find?_cons_of_neg _ (by simp [hk])]
      rw [hhead]
      have hih := ih editId now maxAgeMs hnd'
      simp only [cleanupExpiredSessions] at hih ⊢
      by_cases hexp : now - q.2.createdAt > maxAgeMs
      · rw [List.filter_cons_of_neg (by simp [hexp])]
        exact hih
      · rw [List.filter_cons_of_pos (by simp [hexp])]
        have : getSession
            (q :: List.filter
              (fun p => ¬ now - p.2.createdAt > maxAgeMs) rest) editId
            = getSession
              (List.filter (fun p => ¬ now - p.2.createdAt > maxAgeMs) rest)
              editId := by
          simp only [getSession, jsMapGet]
          rw [List.find?_cons_of_neg _ (by simp [hk])]
        rw [this]
        exact hih

/-- C5 counterexample: a session strictly older than the configured max age
is still returned by a lookup before any sweep runs; only the sweep removes
it. -/
theorem claim_C5_counterexample :
    SESSION_MAX_AGE_MS + 1 - exSessionA2.createdAt > SESSION_MAX_AGE_MS ∧
    getSession exStoreA2 "s1" = some exSessionA2 ∧
    getSession
      (cleanupExpiredSessions exStoreA2 (SESSION_MAX_AGE_MS + 1)
        SESSION_MAX_AGE_MS).1 "s1" = none :=
  ⟨by decide, by decide, by decide⟩

/-- C5 as amended: session lookup is a plain map access that ignores the
session's age entirely (an expired-but-unswept session is still returned),
while the sweep deletes exactly the sessions whose age strictly exceeds the
threshold, after which lookups no longer find them. -/
theorem claim_C5 (store : SessionStore) (editId : String)
    (session : NoteEditSession) (now maxAgeMs : Nat)
    (hnd : (store.map Prod.fst).Nodup) :
    (jsMapGet store editId = some session →
      now - session.createdAt > maxAgeMs →
      getSession store editId = some session) ∧
    (getSession (cleanupExpiredSessions store now maxAgeMs).1 editId =
      match getSession store editId with
      | some s => if now - s.createdAt > maxAgeMs then none else some s
      | none => none) :=
  ⟨fun h _ => h, cleanup_lookup store editId now maxAgeMs hnd⟩

/-- Witness for C5 at a concrete expired session. -/
theorem claim_C5_witness :
    (exStoreA2.map Prod.fst).Nodup ∧
    jsMapGet exStoreA2 "s1" = some exSessionA2 ∧
    SESSION_MAX_AGE_MS + 1 - exSessionA2.createdAt > SESSION_MAX_AGE_MS ∧
    getSession exStoreA2 "s1" = some exSessionA2 ∧
    getSession
      (cleanupExpiredSessions exStoreA2 (SESSION_MAX_AGE_MS + 1)
        SESSION_MAX_AGE_MS).1 "s1" =
      match getSession exStoreA2 "s1" with
      | some s =>
        if SESSION_MAX_AGE_MS + 1 - s.createdAt > SESSION_MAX_AGE_MS
        then none else some s
      | none => none :=
  ⟨by decide, by decide, by decide,
   (claim_C5 exStoreA2 "s1" exSessionA2 (SESSION_MAX_AGE_MS + 1)
     SESSION_MAX_AGE_MS (by decide)).1 (by decide) (by decide),
   (claim_C5 exStoreA2 "s1" exSessionA2 (SESSION_MAX_AGE_MS + 1)
     SESSION_MAX_AGE_MS (by decide)).2⟩

/-- C2 counterexample: a fully resolved session whose reconstruction
succeeded with the empty document is rejected by apply (with the
cannot-compute error, since the JS falsy check `!session.currentContent`
also fires on the empty string) and the session is not deleted, refuting
the claim that every fully resolved session applies successfully. -/
theorem claim_C2_counterexample :
    getSession exStoreA2 "s1" = some exSessionA2 ∧
    (getHunkCounts exStoreA2 "s1").pending = 0 ∧
    exSessionA2.currentContent = some "" ∧
    applyNoteEdit exStoreA2 "s1" true = (.cannotComputeContent, exStoreA2) ∧
    getSession (applyNoteEdit exStoreA2 "s1" true).2 "s1" = some exSessionA2 :=
  ⟨by decide, by decide, rfl, by decide, by decide⟩

/-- C2 as amended: apply fails with the unresolved-changes error
(reporting the pending count) iff the pending count is positive; with no
pending hunks it fails with the cannot-compute error when
`currentContent` is null or the empty string, and otherwise returns the
content with the session's note id, title and base version, deleting the
session when the write succeeds. -/
theorem claim_C2 (store : SessionStore) (editId : String)
    (writeSucceeds : Bool) (session : NoteEditSession)
    (hget : getSession store editId = some session) :
    (0 < (getHunkCounts store editId).pending →
      applyNoteEdit store editId writeSucceeds
        = (.stillPending (getHunkCounts store editId).pending, store)) ∧
    ((getHunkCounts store editId).pending = 0 →
      (session.currentContent = none ∨ session.currentContent = some "") →
      applyNoteEdit store editId writeSucceeds
        = (.cannotComputeContent, store)) ∧
    (∀ content : String, (getHunkCounts store editId).pending = 0 →
      session.currentContent = some content → jsStrEmpty content = false →
      applyNoteEdit store editId true
        = (.applied content session.noteUid session.title session.baseVersion,
           jsMapDelete store editId)) := by
  have hdel : (discardSession store editId).2 = jsMapDelete store editId := by
    have hget' : jsMapGet store editId = some session := hget
    rw [discardSession, hget']
  refine ⟨?_, ?_, ?_⟩
  · intro hp
    simp only [applyNoteEdit, hget]
    rw [if_pos hp]
  · intro hp hcc
    simp only [applyNoteEdit, hget]
    rw [if_neg (by omega)]
    rcases hcc with hcc | hcc
    · rw [hcc]
    · rw [hcc]
      rfl
  · intro content hp hcc hne
    simp only [applyNoteEdit, hget]
    rw [if_neg (by omega), hcc]
    simp [hne, hdel]

/-- Witness for C2 at a concrete resolved session with non-empty content:
apply succeeds and deletes the session. -/
theorem claim_C2_witness :
    getSession exStoreC2 "s2" = some exSessionC2 ∧
    (getHunkCounts exStoreC2 "s2").pending = 0 ∧
    exSessionC2.currentContent = some "b\n" ∧
    jsStrEmpty "b\n" = false ∧
    applyNoteEdit exStoreC2 "s2" true
      = (.applied "b\n" exSessionC2.noteUid exSessionC2.title
           exSessionC2.baseVersion, jsMapDelete exStoreC2 "s2") :=
  ⟨by decide, by decide, by decide, by decide,
   (claim_C2 exStoreC2 "s2" true exSessionC2 (by decide)).2.2 "b\n"
     (by decide) (by decide) (by decide)⟩

/-- C9 counterexample: on a fully resolved session, a failed backend write
leaves the store untouched — the session is still present afterwards, so
apply does not delete the session on every write outcome. -/
theorem claim_C9_counterexample :
    getSession exStoreC2 "s2" = some exSessionC2 ∧
    (getHunkCounts exStoreC2 "s2").pending = 0 ∧
    exSessionC2.currentContent = some "b\n" ∧
    applyNoteEdit exStoreC2 "s2" false = (.saveFailed, exStoreC2) ∧
    getSession (applyNoteEdit exStoreC2 "s2" false).2 "s2"
      = some exSessionC2 :=
  ⟨by decide, by decide, by decide, by decide, by decide⟩

/-- C9 as amended: the apply handler deletes the session only when the
backend write succeeds; on a failed write (for example a version conflict)
it returns the save-failure outcome and the store — including the
session — is unchanged. -/
theorem claim_C9 (store : SessionStore) (editId : String)
    (session : NoteEditSession) (content : String)
    (hget : getSession store editId = some session)
    (hp : (getHunkCounts store editId).pending = 0)
    (hcc : session.currentContent = some content)
    (hne : jsStrEmpty content = false) :
    (applyNoteEdit store editId true).2 = jsMapDelete store editId ∧
    applyNoteEdit store editId false = (.saveFailed, store) := by
  have hdel : (discardSession store editId).2 = jsMapDelete store editId := by
    have hget' : jsMapGet store editId = some session := hget
    rw [discardSession, hget']
  constructor
  · simp only [applyNoteEdit, hget]
    rw [if_neg (by omega), hcc]
    simp [hne, hdel]
  · simp only [applyNoteEdit, hget]
    rw [if_neg (by omega), hcc]
    simp [hne]

/-- Witness for C9 at a concrete resolved session. -/
theorem claim_C9_witness :
    getSession exStoreC2 "s2" = some exSessionC2 ∧
    ((applyNoteEdit exStoreC2 "s2" true).2 = jsMapDelete exStoreC2 "s2" ∧
     applyNoteEdit exStoreC2 "s2" false = (.saveFailed, exStoreC2)) :=
  ⟨by decide,
   claim_C9 exStoreC2 "s2" exSessionC2 "b\n" (by decide) (by decide)
     (by decide) (by decide)⟩

/-- C8: evaluation of the differ's empty-input special cases.  Both inputs
empty give zero hunks; empty original with proposed `"new\n"` gives exactly
one added hunk covering the whole proposed text with `originalRange` null —
but its stored line count is `"new\n".split("\n").length = 2` (without the
trailing-newline correction the general path and `jsLineCount` apply), so
its `proposedRange` is `[1,2]` where the claim (and the document's actual
line count of 1) say `[1,1]`.  The symmetric removal case shows the same
off-by-one on the original side. -/
theorem claim_C8_eval :
    annotateHunksWithIds (computeLineDiff "" "new\n" [] {})
      = [{ kind := .added, original := "", proposed := "new\n",
           id := some "h1", origStart := none, origEnd := none,
           newStart := some 1, newEnd := some 2,
           origLineCount := some 0, newLineCount := some 2 }] ∧
    jsLineCount "new\n" = 1 ∧
    computeLineDiff "" "" [] {} = [] ∧
    annotateHunksWithIds (computeLineDiff "x\n" "" [] {})
      = [{ kind := .removed, original := "x\n", proposed := "",
           id := some "h1", origStart := some 1, origEnd := some 2,
           newStart := none, newEnd := none,
           origLineCount := some 2, newLineCount := some 0 }] :=
  ⟨by decide, by decide, by decide, by decide⟩

end ToolBridge
